import Mathlib

/-!
# Verification of the health-data dashboard's navigation and state logic

A shallow embedding, in Lean, of the hooks and components of the
MCC health-data dashboard (a React application): the JS `Date` arithmetic
used by `useChartNavigation.js`, the data-availability registry of
`useVisualizations.js`, the expand/collapse and rendering helpers, the
`usePatientData` state machine, and the sleep-chart summary statistics,
together with theorems settling the specification's claims about them.

JS `Date` objects are modelled as integer timestamps (milliseconds since
the Unix epoch, idealised local time with no DST), and the engine's
year/month/day accessors are modelled by proleptic-Gregorian calendar
conversions as specified by ECMA-262 (`YearFromTime` is the largest year
whose first instant is not after the time, and so on).  JS numbers
appearing in summary statistics are idealised as rationals.
-/

namespace HealthDash

/-! ## Proleptic Gregorian calendar arithmetic

The 400-year era decomposition: an era is 146097 days; within an era,
years are counted from March 1 (so the possible leap day is the last day
of the shifted year).  `soy yoe` is the day-of-era on which year-of-era
`yoe` begins, `msoy mp` the day-of-shifted-year on which shifted month
`mp` begins (`mp = 0` is March, `mp = 11` is February). -/

/-- Day-of-era (era = 400 Gregorian years, counted from March 1) at which
year-of-era `yoe` begins. -/
def soy (yoe : Int) : Int := 365 * yoe + yoe / 4 - yoe / 100

/-- Day-of-shifted-year at which shifted month `mp` begins. -/
def msoy (mp : Int) : Int := (153 * mp + 2) / 5

/-- Year-of-era containing day-of-era `doe`: the largest `yoe` in
`[0, 399]` with `soy yoe ≤ doe` (candidate `doe / 365`, clamped to the
era and adjusted down by one if it overshoots). -/
def yoeOfDoe (doe : Int) : Int :=
  let c := if doe / 365 ≤ 399 then doe / 365 else 399
  if soy c ≤ doe then c else c - 1

/-- Shifted month containing shifted day-of-year `doy`: the largest `mp`
in `[0, 11]` with `msoy mp ≤ doy`. -/
def mpOfDoy (doy : Int) : Int :=
  let c := if doy / 30 ≤ 11 then doy / 30 else 11
  if msoy c ≤ doy then c else c - 1

/-- A Gregorian calendar date: year, 1-based month, day of month. -/
structure Civil where
  year : Int
  month : Int
  day : Int
deriving DecidableEq, Repr

/-- The 400-year era containing epoch day `z` (eras are counted from
0000-03-01, which is 719468 days before the Unix epoch). -/
def eraOf (z : Int) : Int := (z + 719468) / 146097

/-- Day within its era of epoch day `z`, in `[0, 146096]`. -/
def doeOf (z : Int) : Int := z + 719468 - eraOf z * 146097

/-- Year-of-era of epoch day `z`. -/
def yoeODay (z : Int) : Int := yoeOfDoe (doeOf z)

/-- Day within its (March-based) shifted year of epoch day `z`. -/
def doyODay (z : Int) : Int := doeOf z - soy (yoeODay z)

/-- Shifted month of epoch day `z`. -/
def mpODay (z : Int) : Int := mpOfDoy (doyODay z)

/-- Calendar date of a count of days since the Unix epoch: the model of a
JS engine's `YearFromTime` / `MonthFromTime` / `DateFromTime` (ECMA-262),
via the 400-year-era decomposition. -/
def civil_from_days (z : Int) : Civil :=
  let mp := mpODay z
  let m := if mp < 10 then mp + 3 else mp - 9
  ⟨if m ≤ 2 then eraOf z * 400 + yoeODay z + 1 else eraOf z * 400 + yoeODay z,
   m, doyODay z - msoy mp + 1⟩

/-- Days since the Unix epoch of the Gregorian date `(y, m, d)` (`m` is
1-based and must be in `[1, 12]`; `d` may lie outside the month, with the
usual linear overflow semantics of ECMA-262 `MakeDay`). -/
def days_from_civil (y m d : Int) : Int :=
  let yy := if m ≤ 2 then y - 1 else y
  let era := yy / 400
  let yoe := yy - era * 400
  let mp := if m ≤ 2 then m + 9 else m - 3
  era * 146097 + soy yoe + msoy mp + d - 1 - 719468

/-- Number of days in month `m` of year `y` (Gregorian). -/
def daysInMonth (y m : Int) : Int :=
  if m = 2 then (if y % 4 = 0 ∧ (y % 100 ≠ 0 ∨ y % 400 = 0) then 29 else 28)
  else if m = 4 ∨ m = 6 ∨ m = 9 ∨ m = 11 then 30
  else 31

theorem soy_mono {a b : Int} (h : a ≤ b) : soy a ≤ soy b := by
  simp only [soy]; omega

theorem msoy_mono {a b : Int} (h : a ≤ b) : msoy a ≤ msoy b := by
  simp only [msoy]; omega

theorem yoeOfDoe_bracket {doe : Int} (h0 : 0 ≤ doe) (h1 : doe ≤ 146096) :
    0 ≤ yoeOfDoe doe ∧ yoeOfDoe doe ≤ 399 ∧ soy (yoeOfDoe doe) ≤ doe ∧
    (yoeOfDoe doe ≤ 398 → doe < soy (yoeOfDoe doe + 1)) := by
  simp only [yoeOfDoe, soy]
  split_ifs <;> (try simp only [Int.sub_add_cancel]) <;> omega

theorem mpOfDoy_bracket {doy : Int} (h0 : 0 ≤ doy) (h1 : doy ≤ 365) :
    0 ≤ mpOfDoy doy ∧ mpOfDoy doy ≤ 11 ∧ msoy (mpOfDoy doy) ≤ doy ∧
    (mpOfDoy doy ≤ 10 → doy < msoy (mpOfDoy doy + 1)) := by
  simp only [mpOfDoy, msoy]
  split_ifs <;> (try simp only [Int.sub_add_cancel]) <;> omega

/-- Uniqueness of the bracketing year-of-era. -/
theorem yoeOfDoe_eq {doe y doy : Int} (hy0 : 0 ≤ y) (hy1 : y ≤ 399)
    (hdoe : doe = soy y + doy) (hd0 : 0 ≤ doy)
    (hd1 : y ≤ 398 → doe < soy (y + 1)) (hd2 : doe ≤ 146096) :
    yoeOfDoe doe = y := by
  have h0 : 0 ≤ doe := by
    have := soy_mono hy0
    simp only [soy] at this hdoe
    omega
  obtain ⟨b0, b1, b2, b3⟩ := yoeOfDoe_bracket h0 hd2
  rcases lt_trichotomy (yoeOfDoe doe) y with h | h | h
  · have h2 : yoeOfDoe doe + 1 ≤ y := by omega
    have h3 := soy_mono h2
    have h4 := b3 (by omega)
    omega
  · exact h
  · have h2 : y + 1 ≤ yoeOfDoe doe := by omega
    have h3 := soy_mono h2
    have h4 := hd1 (by omega)
    omega

/-- Uniqueness of the bracketing shifted month. -/
theorem mpOfDoy_eq {doy mp r : Int} (hm0 : 0 ≤ mp) (hm1 : mp ≤ 11)
    (hdoy : doy = msoy mp + r) (hr0 : 0 ≤ r)
    (hr1 : mp ≤ 10 → doy < msoy (mp + 1)) (hd2 : doy ≤ 365) :
    mpOfDoy doy = mp := by
  have h0 : 0 ≤ doy := by
    have := msoy_mono hm0
    simp only [msoy] at this hdoy
    omega
  obtain ⟨b0, b1, b2, b3⟩ := mpOfDoy_bracket h0 hd2
  rcases lt_trichotomy (mpOfDoy doy) mp with h | h | h
  · have h2 : mpOfDoy doy + 1 ≤ mp := by omega
    have h3 := msoy_mono h2
    have h4 := b3 (by omega)
    omega
  · exact h
  · have h2 : mp + 1 ≤ mpOfDoy doy := by omega
    have h3 := msoy_mono h2
    have h4 := hr1 (by omega)
    omega

end HealthDash

namespace HealthDash

theorem soy_gap_bounds (y : Int) : soy y + 365 ≤ soy (y + 1) ∧ soy (y + 1) ≤ soy y + 366 := by
  simp only [soy]; omega

/-- A year-of-era followed by a leap year ends 366 days before the next
one starts.  (`y % 100 = 99` is excluded: year-of-era 399 is also leap,
but its 366th day is the last day of the era, not `soy 400`.) -/
theorem soy_gap_leap {y : Int} (h4 : y % 4 = 3) (h100 : y % 100 ≠ 99) :
    soy (y + 1) = soy y + 366 := by
  simp only [soy]
  omega

theorem soy_zero : soy 0 = 0 := by norm_num [soy]

theorem soy_top : soy 399 = 145731 := by norm_num [soy]

theorem msoy_table :
    msoy 0 = 0 ∧ msoy 1 = 31 ∧ msoy 2 = 61 ∧ msoy 3 = 92 ∧ msoy 4 = 122 ∧
    msoy 5 = 153 ∧ msoy 6 = 184 ∧ msoy 7 = 214 ∧ msoy 8 = 245 ∧ msoy 9 = 275 ∧
    msoy 10 = 306 ∧ msoy 11 = 337 ∧ msoy 12 = 367 := by
  norm_num [msoy]

theorem doeOf_bounds (z : Int) : 0 ≤ doeOf z ∧ doeOf z ≤ 146096 := by
  simp only [doeOf, eraOf]; omega

theorem yoeODay_bounds (z : Int) :
    0 ≤ yoeODay z ∧ yoeODay z ≤ 399 ∧ soy (yoeODay z) ≤ doeOf z ∧
    (yoeODay z ≤ 398 → doeOf z < soy (yoeODay z + 1)) := by
  obtain ⟨h0, h1⟩ := doeOf_bounds z
  exact yoeOfDoe_bracket h0 h1

theorem doyODay_bounds (z : Int) : 0 ≤ doyODay z ∧ doyODay z ≤ 365 := by
  obtain ⟨h0, h1⟩ := doeOf_bounds z
  obtain ⟨y0, y1, y2, y3⟩ := yoeODay_bounds z
  simp only [doyODay]
  constructor
  · omega
  · rcases lt_or_le (yoeODay z) 399 with h | h
    · have h4 := y3 (by omega)
      have h5 := (soy_gap_bounds (yoeODay z)).2
      omega
    · have h6 : soy (yoeODay z) = 145731 := by
        have h7 : yoeODay z = 399 := by omega
        rw [h7]; exact soy_top
      omega

theorem mpODay_bounds (z : Int) :
    0 ≤ mpODay z ∧ mpODay z ≤ 11 ∧ msoy (mpODay z) ≤ doyODay z ∧
    (mpODay z ≤ 10 → doyODay z < msoy (mpODay z + 1)) := by
  obtain ⟨h0, h1⟩ := doyODay_bounds z
  exact mpOfDoy_bracket h0 h1

/-- Unfolding `days_from_civil` for months March through December. -/
theorem days_from_civil_ge3 (y m d : Int) (h1 : 3 ≤ m) :
    days_from_civil y m d =
      y / 400 * 146097 + soy (y - y / 400 * 400) + msoy (m - 3) + d - 1 - 719468 := by
  simp only [days_from_civil]
  rw [if_neg (by omega), if_neg (by omega)]

/-- Unfolding `days_from_civil` for January and February. -/
theorem days_from_civil_le2 (y m d : Int) (h1 : m ≤ 2) :
    days_from_civil y m d =
      (y - 1) / 400 * 146097 + soy (y - 1 - (y - 1) / 400 * 400) + msoy (m + 9) + d - 1 -
        719468 := by
  simp only [days_from_civil]
  rw [if_pos (by omega), if_pos (by omega)]

/-- Left inverse: converting an epoch day to a calendar date and back is
the identity, for every epoch day. -/
theorem days_civil_id (z : Int) :
    days_from_civil (civil_from_days z).year (civil_from_days z).month
      (civil_from_days z).day = z := by
  obtain ⟨d0, d1⟩ := doeOf_bounds z
  obtain ⟨y0, y1, y2, y3⟩ := yoeODay_bounds z
  obtain ⟨m0, m1, m2, m3⟩ := mpODay_bounds z
  have hdoe : doeOf z = z + 719468 - eraOf z * 146097 := rfl
  have hdoy : doyODay z = doeOf z - soy (yoeODay z) := rfl
  rcases lt_or_le (mpODay z) 10 with hmp | hmp
  · simp only [civil_from_days]
    rw [if_pos hmp]
    have hB : ¬(mpODay z + 3 ≤ 2) := by omega
    rw [if_neg hB]
    rw [days_from_civil_ge3 (eraOf z * 400 + yoeODay z) (mpODay z + 3)
      (doyODay z - msoy (mpODay z) + 1) (by omega)]
    have he : (eraOf z * 400 + yoeODay z) / 400 = eraOf z := by omega
    rw [he]
    have ha : eraOf z * 400 + yoeODay z - eraOf z * 400 = yoeODay z := by ring
    rw [ha]
    have hb : mpODay z + 3 - 3 = mpODay z := by ring
    rw [hb]
    omega
  · simp only [civil_from_days]
    have hA : ¬(mpODay z < 10) := by omega
    rw [if_neg hA]
    have hB : mpODay z - 9 ≤ 2 := by omega
    rw [if_pos hB]
    rw [days_from_civil_le2 (eraOf z * 400 + yoeODay z + 1) (mpODay z - 9)
      (doyODay z - msoy (mpODay z) + 1) hB]
    have hc : eraOf z * 400 + yoeODay z + 1 - 1 = eraOf z * 400 + yoeODay z := by ring
    rw [hc]
    have he : (eraOf z * 400 + yoeODay z) / 400 = eraOf z := by omega
    rw [he]
    have ha : eraOf z * 400 + yoeODay z - eraOf z * 400 = yoeODay z := by ring
    rw [ha]
    have hb : mpODay z - 9 + 9 = mpODay z := by ring
    rw [hb]
    omega


/-- Assembly of the right-inverse: an epoch day built from era, year-of-era,
shifted month and day-of-month is decomposed back into the same pieces. -/
theorem civil_components (z era yoe mp d : Int)
    (he0 : 0 ≤ yoe) (he1 : yoe ≤ 399) (hm0 : 0 ≤ mp) (hm1 : mp ≤ 11)
    (hd1 : 1 ≤ d)
    (hlen : mp ≤ 10 → msoy mp + d - 1 < msoy (mp + 1))
    (hyr : yoe ≤ 398 → soy yoe + msoy mp + d - 1 < soy (yoe + 1))
    (hmax : soy yoe + msoy mp + d - 1 ≤ 146096)
    (hz : z = era * 146097 + soy yoe + msoy mp + d - 1 - 719468) :
    eraOf z = era ∧ yoeODay z = yoe ∧ doyODay z = msoy mp + d - 1 ∧ mpODay z = mp := by
  have s0 : 0 ≤ soy yoe := by
    have h := soy_mono he0
    rw [soy_zero] at h
    exact h
  have ms0 : 0 ≤ msoy mp := by
    have h := msoy_mono hm0
    have h2 : msoy 0 = 0 := msoy_table.1
    omega
  have mtop : msoy mp ≤ 337 := by
    have h := msoy_mono hm1
    have h2 : msoy 11 = 337 := msoy_table.2.2.2.2.2.2.2.2.2.2.2.1
    omega
  have hdoy365 : msoy mp + d - 1 ≤ 365 := by
    rcases lt_or_le yoe 399 with h | h
    · have h2 := hyr (by omega)
      have h3 := (soy_gap_bounds yoe).2
      omega
    · have h4 : yoe = 399 := by omega
      rw [h4] at hmax
      rw [soy_top] at hmax
      omega
  have hera : eraOf z = era := by
    simp only [eraOf, hz]
    omega
  have hdoe : doeOf z = soy yoe + msoy mp + d - 1 := by
    have hd : doeOf z = z + 719468 - eraOf z * 146097 := rfl
    rw [hd, hera, hz]
    ring
  have hyoe : yoeODay z = yoe := by
    have hy : yoeODay z = yoeOfDoe (doeOf z) := rfl
    rw [hy, hdoe]
    exact @yoeOfDoe_eq (soy yoe + msoy mp + d - 1) yoe (msoy mp + d - 1) he0 he1
      (by ring) (by omega) (fun h => by have := hyr h; omega) (by omega)
  have hdoy : doyODay z = msoy mp + d - 1 := by
    have hy : doyODay z = doeOf z - soy (yoeODay z) := rfl
    rw [hy, hdoe, hyoe]
    ring
  have hmp : mpODay z = mp := by
    have hy : mpODay z = mpOfDoy (doyODay z) := rfl
    rw [hy, hdoy]
    exact @mpOfDoy_eq (msoy mp + d - 1) mp (d - 1) hm0 hm1 (by ring) (by omega)
      (fun h => hlen h) hdoy365
  exact ⟨hera, hyoe, hdoy, hmp⟩

/-- Values of `daysInMonth` other than February do not depend on the year. -/
theorem daysInMonth_vals (y : Int) :
    daysInMonth y 1 = 31 ∧ daysInMonth y 3 = 31 ∧ daysInMonth y 4 = 30 ∧
    daysInMonth y 5 = 31 ∧ daysInMonth y 6 = 30 ∧ daysInMonth y 7 = 31 ∧
    daysInMonth y 8 = 31 ∧ daysInMonth y 9 = 30 ∧ daysInMonth y 10 = 31 ∧
    daysInMonth y 11 = 30 ∧ daysInMonth y 12 = 31 := by
  simp only [daysInMonth]
  norm_num

theorem daysInMonth_feb (y : Int) :
    daysInMonth y 2 = (if y % 4 = 0 ∧ (y % 100 ≠ 0 ∨ y % 400 = 0) then 29 else 28) := by
  simp only [daysInMonth]
  norm_num

/-- The era decomposition of the year preceding a common leap year: if
`y` is divisible by 4 but not by 100, then `y - 1` sits at a 4-divisible,
non-century position of its era. -/
theorem leap_yoe {y : Int} (h4 : y % 4 = 0) (h100 : y % 100 ≠ 0) :
    (y - 1 - (y - 1) / 400 * 400) % 4 = 3 ∧ (y - 1 - (y - 1) / 400 * 400) % 100 ≠ 99 := by
  obtain ⟨q, r, hqr, hr0, hr1⟩ : ∃ q r, y - 1 = 400 * q + r ∧ 0 ≤ r ∧ r < 400 :=
    ⟨(y - 1) / 400, (y - 1) % 400, by omega, by omega, by omega⟩
  have he : y - 1 - (y - 1) / 400 * 400 = r := by omega
  rw [he]
  constructor
  · omega
  · omega

/-- Right inverse: converting a valid calendar date to an epoch day and
back is the identity. -/
theorem civil_days_id {y m d : Int} (h1 : 1 ≤ m) (h2 : m ≤ 12) (h3 : 1 ≤ d)
    (h4 : d ≤ daysInMonth y m) :
    civil_from_days (days_from_civil y m d) = ⟨y, m, d⟩ := by
  obtain ⟨t0, t1, t2, t3, t4, t5, t6, t7, t8, t9, t10, t11, t12⟩ := msoy_table
  obtain ⟨v1, v3, v4, v5, v6, v7, v8, v9, v10, v11, v12⟩ := daysInMonth_vals y
  have hsoytop : soy (y - 1 - (y - 1) / 400 * 400) ≤ 145731 := by
    have h := soy_mono (show y - 1 - (y - 1) / 400 * 400 ≤ 399 by omega)
    rw [soy_top] at h
    exact h
  have hsoytop2 : soy (y - y / 400 * 400) ≤ 145731 := by
    have h := soy_mono (show y - y / 400 * 400 ≤ 399 by omega)
    rw [soy_top] at h
    exact h
  rcases le_or_lt m 2 with hm | hm
  · -- January and February: shifted months 10 and 11 of the previous year
    have hgap := soy_gap_bounds (y - 1 - (y - 1) / 400 * 400)
    rcases le_or_lt m 1 with hm1 | hm1
    · -- January
      have hm1e : m = 1 := by omega
      subst hm1e
      rw [v1] at h4
      have hz := days_from_civil_le2 y 1 d (by omega)
      have n1 : (1 : Int) + 9 = 10 := by norm_num
      rw [n1] at hz
      obtain ⟨hera, hyoe, hdoy, hmp⟩ := civil_components (days_from_civil y 1 d)
        ((y - 1) / 400) (y - 1 - (y - 1) / 400 * 400) 10 d
        (by omega) (by omega) (by omega) (by omega) h3
        (by intro h; norm_num; omega) (by intro h; omega) (by omega) hz
      simp only [civil_from_days, hmp, hyoe, hera]
      have hA : ¬((10 : Int) < 10) := by norm_num
      rw [if_neg hA]
      have hB : (10 : Int) - 9 ≤ 2 := by norm_num
      rw [if_pos hB]
      simp only [Civil.mk.injEq]
      refine ⟨by ring_nf, by norm_num, by omega⟩
    · -- February
      have hm2e : m = 2 := by omega
      subst hm2e
      rw [daysInMonth_feb y] at h4
      have hz := days_from_civil_le2 y 2 d (by omega)
      have n1 : (2 : Int) + 9 = 11 := by norm_num
      rw [n1] at hz
      have hyr : y - 1 - (y - 1) / 400 * 400 ≤ 398 →
          soy (y - 1 - (y - 1) / 400 * 400) + msoy 11 + d - 1 <
            soy (y - 1 - (y - 1) / 400 * 400 + 1) := by
        intro h
        rcases le_or_lt d 28 with hd28 | hd28
        · omega
        · -- d = 29 forces a leap year, giving a 366-day shifted year
          have hleap : y % 4 = 0 ∧ (y % 100 ≠ 0 ∨ y % 400 = 0) := by
            by_contra hc
            rw [if_neg hc] at h4
            omega
          have hy400 : y % 400 ≠ 0 := by
            intro hc
            omega
          have h100 : y % 100 ≠ 0 := by
            rcases hleap.2 with hc | hc
            · exact hc
            · exact absurd hc hy400
          obtain ⟨hh1, hh2⟩ := leap_yoe hleap.1 h100
          have hg := soy_gap_leap hh1 hh2
          omega
      obtain ⟨hera, hyoe, hdoy, hmp⟩ := civil_components (days_from_civil y 2 d)
        ((y - 1) / 400) (y - 1 - (y - 1) / 400 * 400) 11 d
        (by omega) (by omega) (by omega) (by omega) h3
        (by intro h; omega) hyr (by split_ifs at h4 <;> omega) hz
      simp only [civil_from_days, hmp, hyoe, hera]
      have hA : ¬((11 : Int) < 10) := by norm_num
      rw [if_neg hA]
      have hB : (11 : Int) - 9 ≤ 2 := by norm_num
      rw [if_pos hB]
      simp only [Civil.mk.injEq]
      refine ⟨by ring_nf, by norm_num, by omega⟩
  · -- March through December: shifted months 0 through 9
    have hgap := (soy_gap_bounds (y - y / 400 * 400)).1
    have hz := days_from_civil_ge3 y m d (by omega)
    have hfit : msoy (m - 3) + d - 1 < msoy (m - 3 + 1) ∧ msoy (m - 3 + 1) ≤ 306 := by
      interval_cases m <;> norm_num <;> omega
    obtain ⟨hera, hyoe, hdoy, hmp⟩ := civil_components (days_from_civil y m d)
      (y / 400) (y - y / 400 * 400) (m - 3) d
      (by omega) (by omega) (by omega) (by omega) h3
      (by intro h; omega) (by intro h; omega) (by omega) hz
    simp only [civil_from_days, hmp, hyoe, hera]
    have hA : m - 3 < 10 := by omega
    rw [if_pos hA]
    have hB : ¬(m - 3 + 3 ≤ 2) := by omega
    rw [if_neg hB]
    simp only [Civil.mk.injEq]
    refine ⟨by ring_nf, by ring, by omega⟩

/-- `days_from_civil` is linear in the day argument (ECMA-262 `MakeDay`
day overflow). -/
theorem days_from_civil_lin (y m d : Int) :
    days_from_civil y m d = days_from_civil y m 0 + d := by
  simp only [days_from_civil]
  split_ifs <;> ring

/-- The month of a converted epoch day is in `[1, 12]` and its day of
month is at least 1. -/
theorem civil_month_day_bounds (z : Int) :
    1 ≤ (civil_from_days z).month ∧ (civil_from_days z).month ≤ 12 ∧
    1 ≤ (civil_from_days z).day := by
  obtain ⟨m0, m1, m2, m3⟩ := mpODay_bounds z
  simp only [civil_from_days]
  rcases lt_or_le (mpODay z) 10 with hmp | hmp
  · rw [if_pos hmp]
    refine ⟨by omega, by omega, by omega⟩
  · have hA : ¬(mpODay z < 10) := by omega
    rw [if_neg hA]
    refine ⟨by omega, by omega, by omega⟩

/-- The first of March of year `y` comes `337 + daysInMonth y 2` days
after the first of March of year `y - 1` (the length of the shifted
year ending in February of year `y`). -/
theorem march_start_gap (y : Int) :
    y / 400 * 146097 + soy (y - y / 400 * 400) =
      (y - 1) / 400 * 146097 + soy (y - 1 - (y - 1) / 400 * 400) + 337 +
        daysInMonth y 2 := by
  obtain ⟨q, r, hqr, hr0, hr1⟩ : ∃ q r, y = 400 * q + r ∧ 0 ≤ r ∧ r < 400 :=
    ⟨y / 400, y % 400, by omega, by omega, by omega⟩
  subst hqr
  rcases le_or_lt r 0 with hr | hr
  · -- a multiple of 400: crossing an era boundary, and a leap year
    have hre : r = 0 := by omega
    subst hre
    have e1 : (400 * q + 0) / 400 = q := by omega
    have e2 : (400 * q + 0 - 1) / 400 = q - 1 := by omega
    rw [e1, e2]
    have e3 : 400 * q + 0 - q * 400 = 0 := by ring
    rw [e3, soy_zero]
    have e4 : 400 * q + 0 - 1 - (q - 1) * 400 = 399 := by ring
    rw [e4, soy_top]
    rw [daysInMonth_feb]
    have e5 : (400 * q + 0) % 4 = 0 := by omega
    have e6 : (400 * q + 0) % 400 = 0 := by omega
    rw [if_pos ⟨e5, Or.inr e6⟩]
    ring
  · -- within an era
    have e1 : (400 * q + r) / 400 = q := by omega
    have e2 : (400 * q + r - 1) / 400 = q := by omega
    rw [e1, e2]
    have e3 : 400 * q + r - q * 400 = r := by ring
    rw [e3]
    have e4 : 400 * q + r - 1 - q * 400 = r - 1 := by ring
    rw [e4]
    rw [daysInMonth_feb]
    have e5 : (400 * q + r) % 4 = r % 4 := by omega
    have e6 : (400 * q + r) % 100 = r % 100 := by omega
    have e7 : (400 * q + r) % 400 = r := by omega
    rcases Decidable.em ((400 * q + r) % 4 = 0 ∧
        ((400 * q + r) % 100 ≠ 0 ∨ (400 * q + r) % 400 = 0)) with hc | hc
    · rw [if_pos hc]
      obtain ⟨hc1, hc2⟩ := hc
      have hr4 : r % 4 = 0 := by omega
      have hr100 : r % 100 ≠ 0 := by
        rcases hc2 with hh | hh
        · omega
        · omega
      simp only [soy]
      omega
    · rw [if_neg hc]
      have hcr : ¬(r % 4 = 0 ∧ r % 100 ≠ 0) := by
        intro ⟨hh1, hh2⟩
        exact hc ⟨by omega, Or.inl (by omega)⟩
      simp only [soy]
      rcases Decidable.em (r % 4 = 0) with h4 | h4
      · have h100 : r % 100 = 0 := by tauto
        omega
      · have h100 : r % 100 ≠ 0 := by
          intro hh
          exact h4 (by omega)
        omega

/-- Rollover: the first of month `m + 1` is the day after the last of
month `m` (months February through December of the same year, shifted
representation). -/
theorem month_rollover {y m : Int} (h1 : 1 ≤ m) (h2 : m ≤ 11) :
    days_from_civil y (m + 1) 1 = days_from_civil y m (daysInMonth y m) + 1 := by
  obtain ⟨t0, t1, t2, t3, t4, t5, t6, t7, t8, t9, t10, t11, t12⟩ := msoy_table
  obtain ⟨v1, v3, v4, v5, v6, v7, v8, v9, v10, v11, v12⟩ := daysInMonth_vals y
  have hg := march_start_gap y
  interval_cases m <;> simp only [days_from_civil] <;> norm_num <;> omega

/-- Rollover: the first of January is the day after the previous
December 31. -/
theorem year_rollover (y : Int) :
    days_from_civil (y + 1) 1 1 = days_from_civil y 12 31 + 1 := by
  obtain ⟨t0, t1, t2, t3, t4, t5, t6, t7, t8, t9, t10, t11, t12⟩ := msoy_table
  simp only [days_from_civil]
  norm_num
  omega

/-! ## The JS `Date` model: integer millisecond timestamps

A JS `Date` is a count of milliseconds since the Unix epoch (idealised
local time, no DST).  The accessors and mutators used by
`useChartNavigation.js` are modelled after ECMA-262: `getDay` uses the
fact that the epoch day was a Thursday; `new Date(y, mIdx, d)` and
`setMonth` normalise an out-of-range month index into the year
(`MakeDay`); `setDate` and `setHours` keep the other components. -/

def msPerDay : Int := 86400000

/-- Epoch day containing timestamp `t` (ECMA-262 `Day(t)`). -/
def dayOfTs (t : Int) : Int := t / msPerDay

/-- Millisecond of day of timestamp `t` (ECMA-262 `TimeWithinDay`). -/
def msOfTs (t : Int) : Int := t % msPerDay

def getFullYear (t : Int) : Int := (civil_from_days (dayOfTs t)).year

/-- JS `getMonth` is 0-based. -/
def getMonth (t : Int) : Int := (civil_from_days (dayOfTs t)).month - 1

def getDate (t : Int) : Int := (civil_from_days (dayOfTs t)).day

/-- Day of week, `0` = Sunday (the epoch day was a Thursday). -/
def getDay (t : Int) : Int := (dayOfTs t + 4) % 7

/-- JS `new Date(y, mIdx, d)` at local midnight, with ECMA-262 month
normalisation (`mIdx` is 0-based and may lie outside `[0, 11]`). -/
def mkDate (y mIdx d : Int) : Int :=
  days_from_civil (y + mIdx / 12) (mIdx % 12 + 1) d * msPerDay

/-- JS `setMonth` (keeps the day of month and the time of day). -/
def setMonth (t mIdx : Int) : Int :=
  days_from_civil (getFullYear t + mIdx / 12) (mIdx % 12 + 1) (getDate t) * msPerDay +
    msOfTs t

/-- JS `setDate` (sets the day of month, keeping month, year and time of
day, with day overflow into adjacent months). -/
def setDate (t n : Int) : Int :=
  days_from_civil (getFullYear t) (getMonth t + 1) n * msPerDay + msOfTs t

/-- JS `setHours(h, min, s, ms)` with all four components given, on a
time of day within the usual ranges (keeps the calendar day). -/
def setHours (t h mi sec ms : Int) : Int :=
  dayOfTs t * msPerDay + (h * 3600000 + mi * 60000 + sec * 1000 + ms)

theorem ts_decomp (t : Int) :
    t = dayOfTs t * msPerDay + msOfTs t ∧ 0 ≤ msOfTs t ∧ msOfTs t < msPerDay := by
  simp only [dayOfTs, msOfTs, msPerDay]
  omega

/-- The date components of a timestamp are a valid civil date with month
in `[1, 12]`. -/
theorem getMonth_bounds (t : Int) :
    0 ≤ getMonth t ∧ getMonth t ≤ 11 ∧ 1 ≤ getDate t := by
  obtain ⟨h1, h2, h3⟩ := civil_month_day_bounds (dayOfTs t)
  simp only [getMonth, getDate]
  omega

/-- `days_from_civil` applied to the components of a timestamp's day
recovers that day. -/
theorem days_of_ts (t : Int) :
    days_from_civil (getFullYear t) (getMonth t + 1) (getDate t) = dayOfTs t := by
  simp only [getFullYear, getMonth, getDate]
  have he : (civil_from_days (dayOfTs t)).month - 1 + 1 = (civil_from_days (dayOfTs t)).month := by
    ring
  rw [he]
  exact days_civil_id (dayOfTs t)

/-- `setDate` shifts the timestamp by whole days, relative to the current
day of month. -/
theorem setDate_eq (t n : Int) : setDate t n = t + (n - getDate t) * msPerDay := by
  simp only [setDate]
  rw [days_from_civil_lin]
  have h2 := days_from_civil_lin (getFullYear t) (getMonth t + 1) (getDate t)
  rw [days_of_ts t] at h2
  obtain ⟨hd, _, _⟩ := ts_decomp t
  have h3 : days_from_civil (getFullYear t) (getMonth t + 1) 0 = dayOfTs t - getDate t := by
    omega
  rw [h3]
  ring_nf
  omega

theorem dayOfTs_shift (t k : Int) : dayOfTs (t + k * msPerDay) = dayOfTs t + k := by
  simp only [dayOfTs, msPerDay]
  omega

theorem dayOfTs_mul (k : Int) : dayOfTs (k * msPerDay) = k := by
  simp only [dayOfTs, msPerDay]
  omega

/-- The second half of validity of `civil_from_days`: the day of month
does not exceed the month's length. -/
theorem gap366_imp {y : Int} (h : soy y + 366 ≤ soy (y + 1)) :
    y % 4 = 3 ∧ y % 100 ≠ 99 := by
  simp only [soy] at h
  omega

theorem civil_day_le_dim (z : Int) :
    (civil_from_days z).day ≤
      daysInMonth (civil_from_days z).year (civil_from_days z).month := by
  obtain ⟨t0, t1, t2, t3, t4, t5, t6, t7, t8, t9, t10, t11, t12⟩ := msoy_table
  obtain ⟨d0, d1⟩ := doeOf_bounds z
  obtain ⟨y0, y1, y2, y3⟩ := yoeODay_bounds z
  obtain ⟨m0, m1, m2, m3⟩ := mpODay_bounds z
  obtain ⟨q0, q1⟩ := doyODay_bounds z
  have hdoy : doyODay z = doeOf z - soy (yoeODay z) := rfl
  simp only [civil_from_days]
  rcases lt_or_le (mpODay z) 10 with hmp | hmp
  · rw [if_pos hmp]
    have hB : ¬(mpODay z + 3 ≤ 2) := by omega
    rw [if_neg hB]
    obtain ⟨v1, v3, v4, v5, v6, v7, v8, v9, v10, v11, v12⟩ :=
      daysInMonth_vals (eraOf z * 400 + yoeODay z)
    have h4 := m3 (by omega)
    have hc : mpODay z = 0 ∨ mpODay z = 1 ∨ mpODay z = 2 ∨ mpODay z = 3 ∨
        mpODay z = 4 ∨ mpODay z = 5 ∨ mpODay z = 6 ∨ mpODay z = 7 ∨
        mpODay z = 8 ∨ mpODay z = 9 := by omega
    rcases hc with h | h | h | h | h | h | h | h | h | h <;>
      rw [h] at h4 m2 ⊢ <;> norm_num at h4 m2 ⊢ <;> omega
  · have hA : ¬(mpODay z < 10) := by omega
    rw [if_neg hA]
    rcases lt_or_le (mpODay z) 11 with hmp2 | hmp2
    · -- mp = 10: January, 31 days
      have h : mpODay z = 10 := by omega
      have h4 := m3 (by omega)
      rw [h] at h4 m2 ⊢
      norm_num at h4 m2 ⊢
      obtain ⟨v1, _⟩ := daysInMonth_vals (eraOf z * 400 + yoeODay z + 1)
      omega
    · -- mp = 11: February
      have h : mpODay z = 11 := by omega
      rw [h] at m2 ⊢
      norm_num at m2 ⊢
      rw [daysInMonth_feb]
      rcases le_or_lt (doyODay z) 364 with hd | hd
      · split_ifs <;> omega
      · -- day-of-year 365: a leap year
        have hd365 : doyODay z = 365 := by omega
        rcases lt_or_le (yoeODay z) 399 with hy | hy
        · have h5 := y3 (by omega)
          obtain ⟨g1, g2⟩ := gap366_imp (show soy (yoeODay z) + 366 ≤ soy (yoeODay z + 1) by omega)
          have c1 : (eraOf z * 400 + yoeODay z + 1) % 4 = 0 := by omega
          have c2 : (eraOf z * 400 + yoeODay z + 1) % 100 ≠ 0 := by omega
          rw [if_pos ⟨c1, Or.inl c2⟩]
          omega
        · have hy399 : yoeODay z = 399 := by omega
          have c1 : (eraOf z * 400 + yoeODay z + 1) % 4 = 0 := by omega
          have c3 : (eraOf z * 400 + yoeODay z + 1) % 400 = 0 := by omega
          rw [if_pos ⟨c1, Or.inr c3⟩]
          omega

/-- `getDate t` never exceeds the length of the month containing `t`. -/
theorem getDate_le_dim (t : Int) :
    getDate t ≤ daysInMonth (getFullYear t) (getMonth t + 1) := by
  have h := civil_day_le_dim (dayOfTs t)
  simp only [getFullYear, getMonth, getDate]
  have he : (civil_from_days (dayOfTs t)).month - 1 + 1 =
      (civil_from_days (dayOfTs t)).month := by ring
  rw [he]
  exact h

/-! ## Chart navigation (`useChartNavigation.js`) -/

/-- Navigation granularity by chart type: month for the mood calendar,
week for every other chart. -/
def navigationType (chartType : String) : String :=
  if chartType = "mood" then "month" else "week"

/-- `goToPrevious`: one month back for month navigation, seven days back
for week navigation. -/
def goToPrevious (chartType : String) (t : Int) : Int :=
  if navigationType chartType = "month" then setMonth t (getMonth t - 1)
  else setDate t (getDate t - 7)

/-- `goToNext`: one month forward for month navigation, seven days
forward for week navigation. -/
def goToNext (chartType : String) (t : Int) : Int :=
  if navigationType chartType = "month" then setMonth t (getMonth t + 1)
  else setDate t (getDate t + 7)

/-- `getDateRange`: the enclosing calendar month (month navigation) or
the enclosing Sunday-to-Saturday week (week navigation). -/
def getDateRange (chartType : String) (t : Int) : Int × Int :=
  if navigationType chartType = "month" then
    (mkDate (getFullYear t) (getMonth t) 1, mkDate (getFullYear t) (getMonth t + 1) 0)
  else
    let startOfWeek := setHours (setDate t (getDate t - getDay t)) 0 0 0 0
    let endOfWeek := setHours (setDate startOfWeek (getDate startOfWeek + 6)) 23 59 59 999
    (startOfWeek, endOfWeek)

/-- July 1, 2024: start of the fixed data span. -/
def dataStartDate : Int := mkDate 2024 6 1

/-- July 31, 2025 (midnight): end of the fixed data span. -/
def dataEndDate : Int := mkDate 2025 6 31

/-- `getThreeMonthRange`: three months back from the reference date,
clamped to the fixed data span. -/
def getThreeMonthRange (t : Int) : Int × Int :=
  let startOfThreeMonths := setMonth t (getMonth t - 3)
  let s := if startOfThreeMonths < dataStartDate then dataStartDate else startOfThreeMonths
  let e := if t > dataEndDate then dataEndDate else t
  (s, e)

/-- Explicit form of the week window: midnight of the Sunday on or before
`t`, through the last millisecond of the following Saturday. -/
theorem getDateRange_week (chartType : String) (t : Int)
    (h : navigationType chartType = "week") :
    getDateRange chartType t =
      ((dayOfTs t - getDay t) * msPerDay,
       (dayOfTs t - getDay t + 6) * msPerDay + 86399999) := by
  have hnm : ¬(navigationType chartType = "month") := by
    rw [h]; intro hc; exact absurd hc (by decide)
  simp only [getDateRange]
  rw [if_neg hnm]
  have h1 : setDate t (getDate t - getDay t) = t + (0 - getDay t) * msPerDay := by
    rw [setDate_eq]; ring_nf
  have h2 : dayOfTs (t + (0 - getDay t) * msPerDay) = dayOfTs t - getDay t := by
    rw [dayOfTs_shift]; ring
  have h3 : setHours (setDate t (getDate t - getDay t)) 0 0 0 0 =
      (dayOfTs t - getDay t) * msPerDay := by
    simp only [setHours, h1, h2]
    ring
  rw [h3]
  have h4 : setDate ((dayOfTs t - getDay t) * msPerDay)
        (getDate ((dayOfTs t - getDay t) * msPerDay) + 6) =
      (dayOfTs t - getDay t) * msPerDay + 6 * msPerDay := by
    rw [setDate_eq]; ring
  rw [h4]
  have h5 : dayOfTs ((dayOfTs t - getDay t) * msPerDay + 6 * msPerDay) =
      dayOfTs t - getDay t + 6 := by
    have h6 : (dayOfTs t - getDay t) * msPerDay + 6 * msPerDay =
        (dayOfTs t - getDay t + 6) * msPerDay := by ring
    rw [h6, dayOfTs_mul]
  simp only [setHours, h5]
  norm_num

theorem daysInMonth_ge28 (y m : Int) :
    28 ≤ daysInMonth y m ∧ daysInMonth y m ≤ 31 := by
  simp only [daysInMonth]
  split_ifs <;> omega

theorem daysInMonth_feb_bounds (y : Int) :
    28 ≤ daysInMonth y 2 ∧ daysInMonth y 2 ≤ 29 := by
  rw [daysInMonth_feb]
  split_ifs <;> omega

theorem ts_encode (k ms : Int) (h0 : 0 ≤ ms) (h1 : ms < msPerDay) :
    dayOfTs (k * msPerDay + ms) = k ∧ msOfTs (k * msPerDay + ms) = ms := by
  simp only [dayOfTs, msOfTs, msPerDay] at h1 ⊢
  omega

/-- JS `new Date(y, m, 0)` (0-based month index `m` in `[1, 12]`) is
midnight of the last day of 1-based month `m` of year `y`. -/
theorem mkDate_month_end (y m : Int) (h1 : 1 ≤ m) (h2 : m ≤ 12) :
    mkDate y m 0 = days_from_civil y m (daysInMonth y m) * msPerDay := by
  simp only [mkDate]
  rcases lt_or_le m 12 with hm | hm
  · have e1 : y + m / 12 = y := by omega
    have e2 : m % 12 + 1 = m + 1 := by omega
    rw [e1, e2]
    have e3 := days_from_civil_lin y (m + 1) 1
    have e4 := month_rollover (y := y) (m := m) h1 (by omega)
    have e5 := days_from_civil_lin y m (daysInMonth y m)
    have e6 := days_from_civil_lin y (m + 1) 0
    have key : days_from_civil y (m + 1) 0 = days_from_civil y m (daysInMonth y m) := by
      omega
    rw [key]
  · have hm12 : m = 12 := by omega
    subst hm12
    norm_num
    have e7 := (daysInMonth_vals y).2.2.2.2.2.2.2.2.2.2
    rw [e7]
    have e3 := days_from_civil_lin (y + 1) 1 1
    have e4 := year_rollover y
    have key : days_from_civil (y + 1) 1 0 = days_from_civil y 12 31 := by omega
    rw [key]
    exact Or.inl rfl

/-- Explicit form of the month window: midnight of the first and of the
last day of the reference date's month. -/
theorem getDateRange_month (chartType : String) (t : Int)
    (h : navigationType chartType = "month") :
    getDateRange chartType t =
      (days_from_civil (getFullYear t) (getMonth t + 1) 1 * msPerDay,
       days_from_civil (getFullYear t) (getMonth t + 1)
         (daysInMonth (getFullYear t) (getMonth t + 1)) * msPerDay) := by
  obtain ⟨b0, b1, b2⟩ := getMonth_bounds t
  simp only [getDateRange]
  rw [if_pos h]
  have e1 : getFullYear t + getMonth t / 12 = getFullYear t := by omega
  have e2 : getMonth t % 12 + 1 = getMonth t + 1 := by omega
  have e3 := mkDate_month_end (getFullYear t) (getMonth t + 1) (by omega) (by omega)
  simp only [mkDate] at e3 ⊢
  rw [e1, e2, e3]

/-- Moving the 0-based month index back by three months always lands at
least 84 days earlier (a month-start monotonicity bound). -/
theorem month3_back (y m : Int) (h1 : 1 ≤ m) (h2 : m ≤ 12) :
    days_from_civil (y + (m - 4) / 12) ((m - 4) % 12 + 1) 0 + 84 ≤
      days_from_civil y m 0 := by
  obtain ⟨t0, t1, t2, t3, t4, t5, t6, t7, t8, t9, t10, t11, t12⟩ := msoy_table
  have hg := march_start_gap y
  have hf := daysInMonth_feb_bounds y
  interval_cases m <;> simp only [days_from_civil] <;> norm_num <;>
    (try rw [(show y + -1 = y - 1 by ring)]) <;> omega

/-- The three-months-back date of `getThreeMonthRange` precedes the
reference date by at least 84 days. -/
theorem setMonth3_le (t : Int) : setMonth t (getMonth t - 3) + 84 * msPerDay ≤ t := by
  obtain ⟨b0, b1, b2⟩ := getMonth_bounds t
  obtain ⟨hts, hms0, hms1⟩ := ts_decomp t
  simp only [setMonth]
  have hM := month3_back (getFullYear t) (getMonth t + 1) (by omega) (by omega)
  have e0 : getMonth t + 1 - 4 = getMonth t - 3 := by ring
  rw [e0] at hM
  have hlin1 := days_from_civil_lin (getFullYear t + (getMonth t - 3) / 12)
    ((getMonth t - 3) % 12 + 1) (getDate t)
  have hlin2 := days_from_civil_lin (getFullYear t) (getMonth t + 1) (getDate t)
  have hrt := days_of_ts t
  simp only [msPerDay] at hms1 hts ⊢
  omega

/-- The date components of `setMonth t mIdx`, when the current day of
month also exists in the target month. -/
theorem setMonth_fields (t mIdx : Int) (hd : getDate t ≤ 28) :
    getFullYear (setMonth t mIdx) = getFullYear t + mIdx / 12 ∧
    getMonth (setMonth t mIdx) = mIdx % 12 ∧
    getDate (setMonth t mIdx) = getDate t ∧
    msOfTs (setMonth t mIdx) = msOfTs t := by
  obtain ⟨b0, b1, b2⟩ := getMonth_bounds t
  obtain ⟨hts, hms0, hms1⟩ := ts_decomp t
  have hdim := daysInMonth_ge28 (getFullYear t + mIdx / 12) (mIdx % 12 + 1)
  have hciv := civil_days_id (y := getFullYear t + mIdx / 12) (m := mIdx % 12 + 1)
    (d := getDate t) (by omega) (by omega) (by omega) (by omega)
  have henc := ts_encode (days_from_civil (getFullYear t + mIdx / 12) (mIdx % 12 + 1)
    (getDate t)) (msOfTs t) hms0 hms1
  simp only [setMonth, getFullYear, getMonth, getDate, msOfTs] at henc hciv ⊢
  rw [henc.1, henc.2, hciv]
  refine ⟨rfl, ?_, rfl, rfl⟩
  show mIdx % 12 + 1 - 1 = mIdx % 12
  ring

/-- `setMonth` one month back then one month forward (or the reverse)
restores the timestamp, provided the day of month is at most 28. -/
theorem setMonth_cancel (t : Int) (hd : getDate t ≤ 28) :
    setMonth (setMonth t (getMonth t - 1)) (getMonth (setMonth t (getMonth t - 1)) + 1) = t ∧
    setMonth (setMonth t (getMonth t + 1)) (getMonth (setMonth t (getMonth t + 1)) - 1) = t := by
  obtain ⟨b0, b1, b2⟩ := getMonth_bounds t
  obtain ⟨hts, hms0, hms1⟩ := ts_decomp t
  constructor
  · obtain ⟨f1, f2, f3, f4⟩ := setMonth_fields t (getMonth t - 1) hd
    obtain ⟨s, hs⟩ : ∃ s, setMonth t (getMonth t - 1) = s := ⟨_, rfl⟩
    rw [hs] at f1 f2 f3 f4 ⊢
    simp only [setMonth, f1, f2, f3, f4]
    have e1 : getFullYear t + (getMonth t - 1) / 12 + ((getMonth t - 1) % 12 + 1) / 12 =
        getFullYear t := by omega
    have e2 : ((getMonth t - 1) % 12 + 1) % 12 + 1 = getMonth t + 1 := by omega
    rw [e1, e2, days_of_ts t]
    omega
  · obtain ⟨f1, f2, f3, f4⟩ := setMonth_fields t (getMonth t + 1) hd
    obtain ⟨s, hs⟩ : ∃ s, setMonth t (getMonth t + 1) = s := ⟨_, rfl⟩
    rw [hs] at f1 f2 f3 f4 ⊢
    simp only [setMonth, f1, f2, f3, f4]
    have e1 : getFullYear t + (getMonth t + 1) / 12 + ((getMonth t + 1) % 12 - 1) / 12 =
        getFullYear t := by omega
    have e2 : ((getMonth t + 1) % 12 - 1) % 12 + 1 = getMonth t + 1 := by omega
    rw [e1, e2, days_of_ts t]
    omega

/-- Arithmetic facts of the week window returned by `getDateRange`. -/
theorem week_window_props (t : Int) :
    msOfTs ((dayOfTs t - getDay t) * msPerDay) = 0 ∧
    getDay ((dayOfTs t - getDay t) * msPerDay) = 0 ∧
    (dayOfTs t - getDay t + 6) * msPerDay + 86399999 =
      (dayOfTs t - getDay t) * msPerDay + 7 * msPerDay - 1 ∧
    getDay ((dayOfTs t - getDay t + 6) * msPerDay + 86399999) = 6 ∧
    (dayOfTs t - getDay t) * msPerDay ≤ t ∧
    t ≤ (dayOfTs t - getDay t + 6) * msPerDay + 86399999 := by
  simp only [getDay, msOfTs, dayOfTs, msPerDay]
  omega

/-- C2 counterexample: with month navigation ('mood'), a reference date
on the last day of its month with a nonzero time of day lies strictly
after the returned end of the window, so `start ≤ reference ≤ end` fails
as stated.  The input is 2025-05-31, 12:00. -/
theorem c2_counterexample :
    ¬(mkDate 2025 4 31 + 43200000 ≤
        (getDateRange "mood" (mkDate 2025 4 31 + 43200000)).2) := by
  decide

/-- C2 (amended): `getDateRange` derives the window of the reference
date.  For week navigation it returns the Sunday of the reference date's
week at 00:00:00.000 and the following Saturday at 23:59:59.999 (the
window spans exactly 7 days), with start ≤ reference ≤ end.  For month
navigation ('mood') it returns midnight of the first and of the last day
of the reference date's month; start ≤ reference always, and the
reference date's calendar day is within the window (the reference
timestamp itself can exceed the returned end by its time of day when it
falls on the last day of the month). -/
theorem c2_date_range (ct : String) (t : Int) :
    (navigationType ct = "week" →
      msOfTs (getDateRange ct t).1 = 0 ∧
      getDay (getDateRange ct t).1 = 0 ∧
      (getDateRange ct t).2 = (getDateRange ct t).1 + 7 * msPerDay - 1 ∧
      getDay (getDateRange ct t).2 = 6 ∧
      (getDateRange ct t).1 ≤ t ∧ t ≤ (getDateRange ct t).2) ∧
    (navigationType ct = "month" →
      civil_from_days (dayOfTs (getDateRange ct t).1) =
        ⟨getFullYear t, getMonth t + 1, 1⟩ ∧
      msOfTs (getDateRange ct t).1 = 0 ∧
      civil_from_days (dayOfTs (getDateRange ct t).2) =
        ⟨getFullYear t, getMonth t + 1,
         daysInMonth (getFullYear t) (getMonth t + 1)⟩ ∧
      msOfTs (getDateRange ct t).2 = 0 ∧
      (getDateRange ct t).1 ≤ t ∧ dayOfTs t ≤ dayOfTs (getDateRange ct t).2) := by
  constructor
  · intro h
    rw [getDateRange_week ct t h]
    exact week_window_props t
  · intro h
    rw [getDateRange_month ct t h]
    obtain ⟨b0, b1, b2⟩ := getMonth_bounds t
    obtain ⟨hts, hms0, hms1⟩ := ts_decomp t
    have hdim := daysInMonth_ge28 (getFullYear t) (getMonth t + 1)
    have hdle := getDate_le_dim t
    have hrt := days_of_ts t
    have hl1 := days_from_civil_lin (getFullYear t) (getMonth t + 1) 1
    have hld := days_from_civil_lin (getFullYear t) (getMonth t + 1) (getDate t)
    have hlm := days_from_civil_lin (getFullYear t) (getMonth t + 1)
      (daysInMonth (getFullYear t) (getMonth t + 1))
    refine ⟨?_, ?_, ?_, ?_, ?_, ?_⟩
    · rw [dayOfTs_mul]
      exact civil_days_id (by omega) (by omega) (by omega) (by omega)
    · obtain ⟨_, he⟩ := ts_encode (days_from_civil (getFullYear t) (getMonth t + 1) 1) 0
        (by omega) (by simp only [msPerDay]; omega)
      simpa using he
    · rw [dayOfTs_mul]
      exact civil_days_id (by omega) (by omega) (by omega) (by omega)
    · obtain ⟨_, he⟩ := ts_encode (days_from_civil (getFullYear t) (getMonth t + 1)
        (daysInMonth (getFullYear t) (getMonth t + 1))) 0
        (by omega) (by simp only [msPerDay]; omega)
      simpa using he
    · simp only [msPerDay] at hts hms1 ⊢
      omega
    · rw [dayOfTs_mul]
      omega

/-- C2 witness: concrete instances of both navigation modes.  On
2025-05-01 the week window starts at a midnight Sunday and the month
window starts on 2025-05-01. -/
theorem c2_witness :
    msOfTs (getDateRange "sleep" (mkDate 2025 4 1)).1 = 0 ∧
    civil_from_days (dayOfTs (getDateRange "mood" (mkDate 2025 4 1)).1) =
      ⟨2025, 5, 1⟩ := by
  constructor
  · exact ((c2_date_range "sleep" (mkDate 2025 4 1)).1 (by decide)).1
  · have h := ((c2_date_range "mood" (mkDate 2025 4 1)).2 (by decide)).1
    rw [h]
    decide

/-- C3 counterexample: month navigation from 2025-05-31 goes back to
2025-05-01 (April has no 31st, so JS `setMonth` overflows to May 1) and
then forward to 2025-06-01, so previous-then-next does not restore the
reference date. -/
theorem c3_counterexample :
    goToNext "mood" (goToPrevious "mood" (mkDate 2025 4 31)) ≠ mkDate 2025 4 31 := by
  decide

/-- C3 (amended): previous-then-next (and next-then-previous) restores
the reference date for week navigation always — each move is exactly 7
days — and for month navigation whenever the reference date's day of
month is at most 28 (so that the day exists in the adjacent months). -/
theorem c3_nav_cancel (ct : String) (t : Int)
    (h : navigationType ct = "week" ∨ getDate t ≤ 28) :
    goToNext ct (goToPrevious ct t) = t ∧
    goToPrevious ct (goToNext ct t) = t ∧
    (navigationType ct = "week" →
      goToPrevious ct t = t - 7 * msPerDay ∧ goToNext ct t = t + 7 * msPerDay) := by
  rcases Decidable.em (navigationType ct = "month") with hm | hm
  · have hd : getDate t ≤ 28 := by
      rcases h with h | h
      · exact absurd (h.symm.trans hm) (by decide)
      · exact h
    obtain ⟨hc1, hc2⟩ := setMonth_cancel t hd
    simp only [goToNext, goToPrevious, if_pos hm]
    exact ⟨hc1, hc2, fun hw => absurd (hw.symm.trans hm) (by decide)⟩
  · simp only [goToNext, goToPrevious, if_neg hm]
    have e1 : setDate t (getDate t - 7) = t - 7 * msPerDay := by
      rw [setDate_eq]; ring
    have e2 : setDate t (getDate t + 7) = t + 7 * msPerDay := by
      rw [setDate_eq]; ring
    rw [e1, e2]
    have e3 : setDate (t - 7 * msPerDay) (getDate (t - 7 * msPerDay) + 7) = t := by
      rw [setDate_eq]; ring
    have e4 : setDate (t + 7 * msPerDay) (getDate (t + 7 * msPerDay) - 7) = t := by
      rw [setDate_eq]; ring
    exact ⟨e3, e4, fun hw => ⟨rfl, rfl⟩⟩

/-- C3 witness: a concrete week cancellation (glucose chart, 2024-07-01)
and a concrete month cancellation (mood chart, 2025-05-01). -/
theorem c3_witness :
    goToNext "glucose" (goToPrevious "glucose" (mkDate 2024 6 1)) = mkDate 2024 6 1 ∧
    goToNext "mood" (goToPrevious "mood" (mkDate 2025 4 1)) = mkDate 2025 4 1 :=
  ⟨(c3_nav_cancel "glucose" (mkDate 2024 6 1) (Or.inl (by decide))).1,
   (c3_nav_cancel "mood" (mkDate 2025 4 1) (Or.inr (by decide))).1⟩

/-- C1 counterexample: for the reference date 2024-01-01 (before the
data span) the clamped start (2024-07-01) lies after the unclamped end
(2024-01-01), so `start ≤ end` fails as stated for that reference
date. -/
theorem c1_counterexample :
    ¬((getThreeMonthRange (mkDate 2024 0 1)).1 ≤
        (getThreeMonthRange (mkDate 2024 0 1)).2) := by
  decide

/-- C1 (amended): for every reference date within the data span (from
2024-07-01, 00:00 through 2025-07-31, 23:59:59.999), `getThreeMonthRange`
returns a window with start not before 2024-07-01, end not after
2025-07-31, and start ≤ end. -/
theorem c1_three_month_range (t : Int)
    (h0 : dataStartDate ≤ t) (h1 : t ≤ dataEndDate + (msPerDay - 1)) :
    dataStartDate ≤ (getThreeMonthRange t).1 ∧
    (getThreeMonthRange t).1 ≤ (getThreeMonthRange t).2 ∧
    (getThreeMonthRange t).2 ≤ dataEndDate := by
  have h3 := setMonth3_le t
  have hse : dataStartDate + 86400000 * 395 = dataEndDate := by decide
  have hK : msPerDay = 86400000 := rfl
  simp only [getThreeMonthRange]
  split_ifs with hA hB hB <;> refine ⟨by omega, by omega, by omega⟩

/-- C1 witness: the amended theorem applied at the start of the data
span. -/
theorem c1_witness :
    dataStartDate ≤ dataStartDate ∧
    dataStartDate ≤ dataEndDate + (msPerDay - 1) ∧
    dataStartDate ≤ (getThreeMonthRange dataStartDate).1 ∧
    (getThreeMonthRange dataStartDate).1 ≤ (getThreeMonthRange dataStartDate).2 ∧
    (getThreeMonthRange dataStartDate).2 ≤ dataEndDate := by
  obtain ⟨w1, w2, w3⟩ := c1_three_month_range dataStartDate (le_refl _) (by decide)
  exact ⟨le_refl _, by decide, w1, w2, w3⟩

/-! ## Patient data objects (`usePatientData.js` / `dataService`)

The per-patient data object has an optional `patientInfo` and one
optional array per metric (`none` models an absent/undefined field).
The array elements are irrelevant to the claims considered here, so
they are `Unit`. -/

structure PatientData where
  patientInfo : Option Unit
  glucoseData : Option (List Unit)
  bloodPressureData : Option (List Unit)
  exerciseData : Option (List Unit)
  moodData : Option (List Unit)
  painData : Option (List Unit)
  mealData : Option (List Unit)
  sleepData : Option (List Unit)
deriving DecidableEq

/-! ## Visualization registry (`useVisualizations.js`) -/

/-- The seven metric keys of the `allVisualizations` registry. -/
inductive VizKey
  | pain
  | bloodPressure
  | glucose
  | exercise
  | mealContents
  | mood
  | sleep
deriving DecidableEq, Repr

/-- Insertion order of the keys of the `allVisualizations` object
literal, which `Object.entries` preserves. -/
def registryOrder : List VizKey :=
  [.pain, .bloodPressure, .glucose, .exercise, .mealContents, .mood, .sleep]

/-- The JS lookup `data[key + "Data"]`.  The data object has no
`mealContentsData` field, so that lookup is undefined (`none`). -/
def lookupDataField (d : PatientData) : VizKey → Option (List Unit)
  | .pain => d.painData
  | .bloodPressure => d.bloodPressureData
  | .glucose => d.glucoseData
  | .exercise => d.exerciseData
  | .mealContents => none
  | .mood => d.moodData
  | .sleep => d.sleepData

/-- One step of the `reduce` in `availableVisualizations`: whether the
key is added.  The special case for `mealContents` checks
`data["mealData"]`; the general case checks `data[key + "Data"]` for
presence (JS truthiness of an array) and non-emptiness. -/
def vizAvailable (d : PatientData) (k : VizKey) : Bool :=
  if k = .mealContents ∧ d.mealData.isSome ∧ 0 < (d.mealData.getD []).length then true
  else decide ((lookupDataField d k).isSome ∧ 0 < ((lookupDataField d k).getD []).length)

/-- `availableVisualizations` (its keys, in registry order): `{}` when
`data` is null, otherwise the registry entries whose data array is
present and non-empty. -/
def availableVisualizations (data : Option PatientData) : List VizKey :=
  match data with
  | none => []
  | some d => registryOrder.filter (fun k => vizAvailable d k)

/-- The data array the specification associates to a key: `mealData` for
`mealContents`, `data[key + "Data"]` for every other key. -/
def claimDataArray (d : PatientData) (k : VizKey) : Option (List Unit) :=
  if k = .mealContents then d.mealData else lookupDataField d k

/-- C4: the set of available visualizations contains a metric key if and
only if that patient's data array for the key (for `mealContents` the
array `data.mealData`, for every other key `data[key + "Data"]`) is
present and non-empty; for a null data object it is empty. -/
theorem c4_available_iff :
    availableVisualizations none = [] ∧
    ∀ (d : PatientData) (k : VizKey),
      k ∈ availableVisualizations (some d) ↔ (claimDataArray d k).getD [] ≠ [] := by
  refine ⟨rfl, fun d k => ?_⟩
  have hmem : k ∈ registryOrder := by
    cases k <;> decide
  simp only [availableVisualizations, List.mem_filter, hmem, true_and]
  have key : ∀ o : Option (List Unit),
      (o.isSome ∧ 0 < (o.getD []).length) ↔ o.getD [] ≠ [] := by
    rintro (_ | l)
    · simp
    · simp [List.length_pos]
  cases k <;>
    simp only [vizAvailable, claimDataArray, lookupDataField, if_pos, if_neg,
      reduceCtorEq, decide_eq_true_eq] <;>
    simp [key]

/-- C4 witness: for a patient object with only a non-empty sleep array,
exactly the sleep visualization is available, and a null data object has
none. -/
theorem c4_witness :
    (VizKey.sleep ∈ availableVisualizations
        (some ⟨some (), none, none, none, none, none, none, some [()]⟩) ↔
      (claimDataArray ⟨some (), none, none, none, none, none, none, some [()]⟩
          VizKey.sleep).getD [] ≠ []) ∧
    availableVisualizations none = [] :=
  ⟨c4_available_iff.2 ⟨some (), none, none, none, none, none, none, some [()]⟩
    VizKey.sleep, c4_available_iff.1⟩

/-! ## Expand/collapse state (`useVisualizationHelpers.js`) -/

/-- `handleExpand`: the functional state update
`prev === itemId ? null : itemId` of `expandedItem`. -/
def handleExpand (itemId : String) (prev : Option String) : Option String :=
  if prev = some itemId then none else some itemId

/-- `isExpanded` for a chart id: `expandedItem === itemId`. -/
def isExpandedSt (st : Option String) (i : String) : Bool := st = some i

/-- C5: the expand/collapse state holds at most one expanded id;
`handleExpand` collapses the currently expanded id, expands any other
id, and applying it twice with the same id returns that id's
expanded/collapsed status to its original value (and can only end with
nothing expanded if the first call expanded the id). -/
theorem c5_handle_expand (st : Option String) (i j : String) :
    (isExpandedSt st i = true → isExpandedSt st j = true → i = j) ∧
    (handleExpand i st = none ↔ st = some i) ∧
    (st ≠ some i → handleExpand i st = some i) ∧
    isExpandedSt (handleExpand i (handleExpand i st)) i = isExpandedSt st i ∧
    (handleExpand i (handleExpand i st) = none → handleExpand i st = some i) := by
  rcases Decidable.em (st = some i) with h | h <;>
    simp_all [handleExpand, isExpandedSt]

/-- C5 witness: the toggle behaviour at a concrete state. -/
theorem c5_witness :
    (isExpandedSt (some "patient-chart-0") "patient-chart-0" = true →
      isExpandedSt (some "patient-chart-0") "patient-chart-1" = true →
      "patient-chart-0" = "patient-chart-1") ∧
    (handleExpand "patient-chart-0" (some "patient-chart-0") = none ↔
      some "patient-chart-0" = some "patient-chart-0") :=
  ⟨(c5_handle_expand (some "patient-chart-0") "patient-chart-0" "patient-chart-1").1,
   (c5_handle_expand (some "patient-chart-0") "patient-chart-0" "patient-chart-1").2.1⟩

/-! ## Rendering decisions (`useVisualizationHelpers.js`,
`PhysicianDashboard.js`) -/

/-- Outcome of the render helpers: one of the two placeholders, or the
registered chart component with its props. -/
inductive RenderOutcome
  | selectPatientPlaceholder
  | invalidPlaceholder
  | chart (key : VizKey) (viewMode : String) (isExpanded : Bool)
deriving DecidableEq

/-- JS truthiness of the patient id prop: null, undefined and the empty
string are falsy. -/
def truthyPatientId : Option String → Bool
  | none => false
  | some s => !(s == "")

/-- The registry lookup `allVisualizations[visualizationType]`. -/
def registryLookup (vizType : String) : Option VizKey :=
  if vizType = "pain" then some .pain
  else if vizType = "bloodPressure" then some .bloodPressure
  else if vizType = "glucose" then some .glucose
  else if vizType = "exercise" then some .exercise
  else if vizType = "mealContents" then some .mealContents
  else if vizType = "mood" then some .mood
  else if vizType = "sleep" then some .sleep
  else none

/-- `renderVisualization` (patient dashboards): placeholder when no
patient is selected, error placeholder when the type is not registered,
otherwise the registered component with `viewMode="patient"`. -/
def renderVisualization (patientId : Option String) (vizType itemId : String)
    (expandedItem : Option String) : RenderOutcome :=
  if truthyPatientId patientId = false then .selectPatientPlaceholder
  else
    match registryLookup vizType with
    | none => .invalidPlaceholder
    | some k => .chart k "patient" (decide (expandedItem = some itemId))

/-- `renderVisualizationWithMode` (PhysicianDashboard): the same
three-way decision, rendering with `viewMode="physician"`. -/
def renderVisualizationWithMode (selectedPatientId : Option String)
    (vizType windowId : String) (expandedItem : Option String) : RenderOutcome :=
  if truthyPatientId selectedPatientId = false then .selectPatientPlaceholder
  else
    match registryLookup vizType with
    | none => .invalidPlaceholder
    | some k => .chart k "physician" (decide (expandedItem = some windowId))

/-- C6: both render helpers make the same three-way decision: a
select-patient placeholder exactly when the patient id is absent (falsy),
an invalid-visualization placeholder exactly when the type is not in the
registry, and otherwise the registered chart component. -/
theorem c6_render_decision (patientId : Option String) (vizType itemId : String)
    (expandedItem : Option String) :
    (truthyPatientId patientId = false →
      renderVisualization patientId vizType itemId expandedItem =
        .selectPatientPlaceholder ∧
      renderVisualizationWithMode patientId vizType itemId expandedItem =
        .selectPatientPlaceholder) ∧
    (truthyPatientId patientId = true → registryLookup vizType = none →
      renderVisualization patientId vizType itemId expandedItem =
        .invalidPlaceholder ∧
      renderVisualizationWithMode patientId vizType itemId expandedItem =
        .invalidPlaceholder) ∧
    (∀ k, truthyPatientId patientId = true → registryLookup vizType = some k →
      renderVisualization patientId vizType itemId expandedItem =
        .chart k "patient" (decide (expandedItem = some itemId)) ∧
      renderVisualizationWithMode patientId vizType itemId expandedItem =
        .chart k "physician" (decide (expandedItem = some itemId))) := by
  refine ⟨fun h => ?_, fun h hn => ?_, fun k h hk => ?_⟩ <;>
    simp_all [renderVisualization, renderVisualizationWithMode]

/-- C6 witness: concrete instances of all three outcomes. -/
theorem c6_witness :
    renderVisualization none "sleep" "patient-chart-0" none =
      RenderOutcome.selectPatientPlaceholder ∧
    renderVisualization (some "Patient_001") "bogus" "patient-chart-0" none =
      RenderOutcome.invalidPlaceholder ∧
    renderVisualizationWithMode (some "Patient_001") "sleep" "physician-chart-0" none =
      RenderOutcome.chart VizKey.sleep "physician"
        (decide ((none : Option String) = some "physician-chart-0")) :=
  ⟨((c6_render_decision none "sleep" "patient-chart-0" none).1 (by decide)).1,
   ((c6_render_decision (some "Patient_001") "bogus" "patient-chart-0" none).2.1
     (by decide) (by decide)).1,
   (((c6_render_decision (some "Patient_001") "sleep" "physician-chart-0" none).2.2
     VizKey.sleep (by decide) (by decide))).2⟩

/-! ## The `usePatientData` hook state machine -/

/-- The hook's React state. -/
structure PatientDataState where
  data : Option PatientData
  loading : Bool
  error : Option String
  lastFetchedId : Option String
deriving DecidableEq

/-- The `patientId` argument as a JS value: null/undefined, a string, or
some non-string value. -/
inductive JsId
  | nullish
  | str (s : String)
  | nonString
deriving DecidableEq

/-- The guard `!id || typeof id !== 'string'`. -/
def invalidId : JsId → Bool
  | .nullish => true
  | .str s => s == ""
  | .nonString => true

/-- The cache guard `id === lastFetchedId` (strict equality against the
stored id, which is a string or null). -/
def idMatchesLast (id : JsId) (last : Option String) : Bool :=
  match id, last with
  | .str s, some t => s == t
  | .nullish, none => true
  | _, _ => false

/-- The string payload of the id (the update path is only reached for
string ids, the others having been filtered by `invalidId`). -/
def idAsString : JsId → Option String
  | .str s => some s
  | _ => none

/-- One completed `loadData` attempt: the state after the async function
finishes, as a function of the prior state, the id argument, and the
outcome of `DataService.getPatientData` (a thrown error message, or a
resolved value that may be null).  The final `error`/`data`/`loading`
values follow the code: `setError(null)` at the start, the
success/failure setters, and `setLoading(false)` in `finally`. -/
def loadData (st : PatientDataState) (id : JsId)
    (fetch : Except String (Option PatientData)) : PatientDataState :=
  if idMatchesLast id st.lastFetchedId ∧ st.data.isSome ∧ st.error = none then st
  else if invalidId id then { st with loading := false, data := none, error := none }
  else
    match fetch with
    | .error msg => { st with error := some msg, data := none, loading := false }
    | .ok none =>
      { st with
        error := some "Invalid data structure received"
        data := none
        loading := false }
    | .ok (some p) =>
      if p.patientInfo.isSome then
        { st with
          data := some p
          lastFetchedId := idAsString id
          loading := false
          error := none }
      else
        { st with
          error := some "Invalid data structure received"
          data := none
          loading := false }

/-- States reachable by the hook: data and error are never both set, and
once data is present the attempt that produced it has completed (loading
cleared, error cleared, and the fetched id recorded). -/
def StateInv (st : PatientDataState) : Prop :=
  (st.data = none ∨ st.error = none) ∧
  (st.data ≠ none → st.loading = false ∧ st.error = none ∧
    ∃ s, st.lastFetchedId = some s ∧ s ≠ "")

/-- C8: after any completed load attempt from a reachable state, loading
is false; data and error are never both set; an absent or non-string id
resets data and error to null; and on the fetch path a failure or a
value without `patientInfo` stores the failure message with null data,
while a success stores the fetched object with null error.  The state
invariant is preserved. -/
theorem c8_load_data (st : PatientDataState) (id : JsId)
    (fetch : Except String (Option PatientData)) (hInv : StateInv st) :
    (loadData st id fetch).loading = false ∧
    ((loadData st id fetch).data = none ∨ (loadData st id fetch).error = none) ∧
    StateInv (loadData st id fetch) ∧
    (invalidId id = true →
      (loadData st id fetch).data = none ∧ (loadData st id fetch).error = none) ∧
    (∀ s, id = .str s → invalidId id = false →
      ¬(idMatchesLast id st.lastFetchedId = true ∧ st.data.isSome = true ∧
        st.error = none) →
      (∀ msg, fetch = .error msg →
        (loadData st id fetch).error = some msg ∧ (loadData st id fetch).data = none) ∧
      (∀ p, fetch = .ok (some p) → p.patientInfo.isSome = true →
        (loadData st id fetch).data = some p ∧ (loadData st id fetch).error = none ∧
        (loadData st id fetch).lastFetchedId = some s) ∧
      ((fetch = .ok none ∨ ∃ p, fetch = .ok (some p) ∧ p.patientInfo = none) →
        (loadData st id fetch).error = some "Invalid data structure received" ∧
        (loadData st id fetch).data = none)) := by
  obtain ⟨hInv1, hInv2⟩ := hInv
  rcases Decidable.em
      (idMatchesLast id st.lastFetchedId = true ∧ st.data.isSome = true ∧
        st.error = none) with hc | hc
  · -- cache hit: state unchanged; data is present, so the invariant
    -- gives loading = false, and an invalid id cannot match the stored
    -- (non-empty, string) id
    obtain ⟨hm, hds, he⟩ := hc
    have hd2 : st.data ≠ none := by
      cases hsd : st.data
      · rw [hsd] at hds; exact absurd hds (by decide)
      · exact fun hh => by simp_all
    obtain ⟨hl, he2, s0, hs0, hs0ne⟩ := hInv2 hd2
    have hval : invalidId id = false := by
      rw [hs0] at hm
      cases id with
      | nullish => exact absurd hm (by simp [idMatchesLast])
      | nonString => exact absurd hm (by simp [idMatchesLast])
      | str s =>
        simp only [idMatchesLast, beq_iff_eq] at hm
        subst hm
        simp only [invalidId, beq_eq_false_iff_ne, ne_eq]
        simpa using hs0ne
    have hcc : idMatchesLast id st.lastFetchedId = true ∧ st.data.isSome = true ∧
        st.error = none := ⟨hm, hds, he⟩
    have hld : loadData st id fetch = st := by
      simp only [loadData]
      rw [if_pos hcc]
    rw [hld]
    refine ⟨hl, Or.inr he2, ⟨hInv1, hInv2⟩, ?_, ?_⟩
    · intro hbad; exact absurd (hval.symm.trans hbad) (by decide)
    · intro s hid hval2 hnc
      exact absurd ⟨hm, hds, he⟩ hnc
  · -- no cache hit: take the update path
    rcases hv : invalidId id with hfalse | htrue
    · -- a valid string id: the fetch outcome decides the new state
      have hnv : ¬(invalidId id = true) := by rw [hv]; exact (by decide)
      rcases fetch with msg | pd
      · have hstep : loadData st id (.error msg) =
            { st with error := some msg, data := none, loading := false } := by
          simp only [loadData]
          rw [if_neg hc, if_neg hnv]
        rw [hstep]
        refine ⟨rfl, Or.inl rfl, ⟨Or.inl rfl, fun hh => absurd rfl hh⟩, ?_, ?_⟩
        · intro hbad; exact absurd hbad (by decide)
        · intro s2 hs2 hv2 hnc
          refine ⟨fun m hm2 => by cases hm2; exact ⟨rfl, rfl⟩, ?_, ?_⟩
          · intro p hp; exact absurd hp (by simp)
          · rintro (hh | ⟨p, hp, hp2⟩) <;> simp_all
      · rcases pd with _ | p
        · have hstep : loadData st id (.ok none) =
              { st with
                error := some "Invalid data structure received"
                data := none
                loading := false } := by
            simp only [loadData]
            rw [if_neg hc, if_neg hnv]
          rw [hstep]
          refine ⟨rfl, Or.inl rfl, ⟨Or.inl rfl, fun hh => absurd rfl hh⟩, ?_, ?_⟩
          · intro hbad; exact absurd hbad (by decide)
          · intro s2 hs2 hv2 hnc
            refine ⟨fun m hm2 => by simp_all, fun p hp => absurd hp (by simp),
              fun hh => ⟨rfl, rfl⟩⟩
        · rcases hpi : p.patientInfo with _ | u
          · have hstep : loadData st id (.ok (some p)) =
                { st with
                  error := some "Invalid data structure received"
                  data := none
                  loading := false } := by
              simp only [loadData, hpi, Option.isSome_none, Bool.false_eq_true, if_false]
              rw [if_neg hc, if_neg hnv]
            rw [hstep]
            refine ⟨rfl, Or.inl rfl, ⟨Or.inl rfl, fun hh => absurd rfl hh⟩, ?_, ?_⟩
            · intro hbad; exact absurd hbad (by decide)
            · intro s2 hs2 hv2 hnc
              refine ⟨fun m hm2 => by simp_all, ?_, fun hh => ⟨rfl, rfl⟩⟩
              intro q hq hqi
              obtain rfl : p = q := by
                injection hq with h2
                injection h2 with h3
              rw [hpi] at hqi
              exact absurd hqi (by simp)
          · have hps : p.patientInfo.isSome = true := by rw [hpi]; rfl
            have hstep : loadData st id (.ok (some p)) =
                { st with
                  data := some p
                  lastFetchedId := idAsString id
                  loading := false
                  error := none } := by
              simp only [loadData, hpi, Option.isSome_some, if_true]
              rw [if_neg hc, if_neg hnv]
            rw [hstep]
            have hlast : ∀ s2, id = .str s2 → idAsString id = some s2 := by
              intro s2 hid; rw [hid]; rfl
            refine ⟨rfl, Or.inr rfl, ⟨Or.inr rfl, fun hh => ⟨rfl, rfl, ?_⟩⟩, ?_, ?_⟩
            · -- the stored id is the (valid, hence non-empty) string id
              cases id with
              | nullish => exact absurd hv (by simp [invalidId])
              | nonString => exact absurd hv (by simp [invalidId])
              | str s2 =>
                refine ⟨s2, rfl, ?_⟩
                simp only [invalidId, beq_eq_false_iff_ne, ne_eq] at hv
                simpa using hv
            · intro hbad; exact absurd hbad (by decide)
            · intro s2 hs2 hv2 hnc
              refine ⟨fun m hm2 => by simp_all, ?_, ?_⟩
              · intro q hq hqi
                obtain rfl : p = q := by
                  injection hq with h2
                  injection h2 with h3
                exact ⟨rfl, rfl, hlast s2 hs2⟩
              · rintro (hh | ⟨q, hq, hq2⟩)
                · simp_all
                · obtain rfl : p = q := by
                    injection hq with h2
                    injection h2 with h3
                  rw [hpi] at hq2
                  exact absurd hq2 (by simp)
    · -- invalid id: reset
      have hstep : loadData st id fetch =
          { st with loading := false, data := none, error := none } := by
        simp only [loadData]
        rw [if_neg hc, if_pos hv]
      rw [hstep]
      refine ⟨rfl, Or.inl rfl, ⟨Or.inl rfl, fun hh => absurd rfl hh⟩,
        fun hh => ⟨rfl, rfl⟩, ?_⟩
      intro s hid hv2 hnc
      exact absurd hv2 (by decide)

/-- C8 witness: a successful load of patient "Patient_001" from the
initial state. -/
theorem c8_witness :
    StateInv ⟨none, true, none, none⟩ ∧
    (loadData ⟨none, true, none, none⟩ (.str "Patient_001")
        (.ok (some ⟨some (), none, none, none, none, none, none, none⟩))).loading =
      false :=
  ⟨⟨Or.inl rfl, fun hh => absurd rfl hh⟩,
   (c8_load_data ⟨none, true, none, none⟩ (.str "Patient_001")
     (.ok (some ⟨some (), none, none, none, none, none, none, none⟩))
     ⟨Or.inl rfl, fun hh => absurd rfl hh⟩).1⟩

/-! ## The `usePatientData` return value: per-metric accessors and flags -/

/-- `data?.glucoseData || []`. -/
def glucoseData (data : Option PatientData) : List Unit :=
  (data.bind PatientData.glucoseData).getD []

/-- `data?.bloodPressureData || []`. -/
def bloodPressureData (data : Option PatientData) : List Unit :=
  (data.bind PatientData.bloodPressureData).getD []

/-- `data?.exerciseData || []`. -/
def exerciseData (data : Option PatientData) : List Unit :=
  (data.bind PatientData.exerciseData).getD []

/-- `data?.moodData || []`. -/
def moodData (data : Option PatientData) : List Unit :=
  (data.bind PatientData.moodData).getD []

/-- `data?.painData || []`. -/
def painData (data : Option PatientData) : List Unit :=
  (data.bind PatientData.painData).getD []

/-- `data?.mealData || []`. -/
def mealData (data : Option PatientData) : List Unit :=
  (data.bind PatientData.mealData).getD []

/-- `data?.sleepData || []`. -/
def sleepData (data : Option PatientData) : List Unit :=
  (data.bind PatientData.sleepData).getD []

/-- `hasData: !!data`. -/
def hasData (data : Option PatientData) : Bool := data.isSome

/-- `hasGlucoseData: (data?.glucoseData || []).length > 0`. -/
def hasGlucoseData (data : Option PatientData) : Bool :=
  decide ((glucoseData data).length > 0)

/-- `hasBloodPressureData: (data?.bloodPressureData || []).length > 0`. -/
def hasBloodPressureData (data : Option PatientData) : Bool :=
  decide ((bloodPressureData data).length > 0)

/-- `hasExerciseData: (data?.exerciseData || []).length > 0`. -/
def hasExerciseData (data : Option PatientData) : Bool :=
  decide ((exerciseData data).length > 0)

/-- `hasMoodData: (data?.moodData || []).length > 0`. -/
def hasMoodData (data : Option PatientData) : Bool :=
  decide ((moodData data).length > 0)

/-- `hasPainData: (data?.painData || []).length > 0`. -/
def hasPainData (data : Option PatientData) : Bool :=
  decide ((painData data).length > 0)

/-- `hasMealData: (data?.mealData || []).length > 0`. -/
def hasMealData (data : Option PatientData) : Bool :=
  decide ((mealData data).length > 0)

/-- `hasSleepData: (data?.sleepData || []).length > 0`. -/
def hasSleepData (data : Option PatientData) : Bool :=
  decide ((sleepData data).length > 0)

/-- C9: each per-metric accessor of the `usePatientData` return value is the
empty array whenever the data object is null or lacks the field (it is a
total function into lists, so never null); `hasData` is true iff the data
object is non-null; and each availability flag is true iff the corresponding
accessor array is non-empty. -/
theorem c9_accessors (data : Option PatientData) :
    (data = none →
      glucoseData data = [] ∧ bloodPressureData data = [] ∧
      exerciseData data = [] ∧ moodData data = [] ∧ painData data = [] ∧
      mealData data = [] ∧ sleepData data = []) ∧
    (∀ d, data = some d →
      (d.glucoseData = none → glucoseData data = []) ∧
      (d.bloodPressureData = none → bloodPressureData data = []) ∧
      (d.exerciseData = none → exerciseData data = []) ∧
      (d.moodData = none → moodData data = []) ∧
      (d.painData = none → painData data = []) ∧
      (d.mealData = none → mealData data = []) ∧
      (d.sleepData = none → sleepData data = []) ∧
      (∀ xs, d.glucoseData = some xs → glucoseData data = xs) ∧
      (∀ xs, d.bloodPressureData = some xs → bloodPressureData data = xs) ∧
      (∀ xs, d.exerciseData = some xs → exerciseData data = xs) ∧
      (∀ xs, d.moodData = some xs → moodData data = xs) ∧
      (∀ xs, d.painData = some xs → painData data = xs) ∧
      (∀ xs, d.mealData = some xs → mealData data = xs) ∧
      (∀ xs, d.sleepData = some xs → sleepData data = xs)) ∧
    (hasData data = true ↔ data ≠ none) ∧
    ((hasGlucoseData data = true ↔ glucoseData data ≠ []) ∧
     (hasBloodPressureData data = true ↔ bloodPressureData data ≠ []) ∧
     (hasExerciseData data = true ↔ exerciseData data ≠ []) ∧
     (hasMoodData data = true ↔ moodData data ≠ []) ∧
     (hasPainData data = true ↔ painData data ≠ []) ∧
     (hasMealData data = true ↔ mealData data ≠ []) ∧
     (hasSleepData data = true ↔ sleepData data ≠ [])) := by
  refine ⟨?_, ?_, ?_, ?_⟩
  · rintro rfl
    exact ⟨rfl, rfl, rfl, rfl, rfl, rfl, rfl⟩
  · rintro d rfl
    refine ⟨?_, ?_, ?_, ?_, ?_, ?_, ?_, ?_, ?_, ?_, ?_, ?_, ?_, ?_⟩ <;>
      first
        | (intro hh;
           simp [glucoseData, bloodPressureData, exerciseData, moodData,
             painData, mealData, sleepData, hh])
        | (intro xs hh;
           simp [glucoseData, bloodPressureData, exerciseData, moodData,
             painData, mealData, sleepData, hh])
  · cases data <;> simp [hasData]
  · refine ⟨?_, ?_, ?_, ?_, ?_, ?_, ?_⟩ <;>
      simp [hasGlucoseData, hasBloodPressureData, hasExerciseData,
        hasMoodData, hasPainData, hasMealData, hasSleepData,
        List.length_pos, decide_eq_true_eq]

/-! ## Selected visualizations (`useVisualizations.js`) -/

/-- A chart id: the template literal `${viewMode}-chart-${index}`. -/
def chartId (viewMode : String) (i : Nat) : String :=
  viewMode ++ "-chart-" ++ toString i

/-- `chartIds`: `availableKeys.map((_, index) => ...)` ignores the element,
so it is the chart-id template mapped over the index range of the
available keys. -/
def chartIds (viewMode : String) (n : Nat) : List String :=
  (List.range n).map (chartId viewMode)

/-- `selectedVisualizations`: the object built by
`chartIds.reduce((acc, chartId, index) => { acc[chartId] = availableKeys[index]; ... })`,
as its (insertion-ordered) list of key/value entries. -/
def selectedVisualizations (viewMode : String) (data : Option PatientData) :
    List (String × VizKey) :=
  (chartIds viewMode (availableVisualizations data).length).zip
    (availableVisualizations data)

theorem zip_range_spec {α : Type} (f : Nat → String) (ks : List α) :
    ∀ i k, ks[i]? = some k →
      (((List.range ks.length).map f).zip ks)[i]? = some (f i, k) := by
  induction ks generalizing f with
  | nil => intro i k h; simp at h
  | cons a as ih =>
    intro i k h
    rw [List.length_cons, List.range_succ_eq_map]
    cases i with
    | zero =>
      simp only [List.getElem?_cons_zero, Option.some.injEq] at h
      subst h
      simp
    | succ n =>
      simp only [List.getElem?_cons_succ] at h
      have hrec := ih (fun j => f (j + 1)) n k h
      simp only [List.map_cons, List.map_map, List.zip_cons_cons,
        List.getElem?_cons_succ]
      have hcomp : (List.range as.length).map (f ∘ Nat.succ) =
          (List.range as.length).map (fun j => f (j + 1)) := by
        apply List.map_congr_left; intro x _; rfl
      rw [hcomp]
      exact hrec

theorem chartId_inj (vm : String) {i j : Nat} (hi : i < 7) (hj : j < 7)
    (h : chartId vm i = chartId vm j) : i = j := by
  have h2 := congrArg String.data h
  simp only [chartId, String.data_append] at h2
  rw [List.append_assoc, List.append_assoc] at h2
  have h3 := List.append_cancel_left (List.append_cancel_left h2)
  have h4 : toString i = toString j := String.ext h3
  interval_cases i <;> interval_cases j <;> first | rfl | (exact absurd h4 (by decide))

theorem chartIds_nodup (vm : String) (n : Nat) (hn : n ≤ 7) :
    (chartIds vm n).Nodup := by
  refine List.Nodup.map_on ?_ (List.nodup_range n)
  intro i hi j hj h
  rw [List.mem_range] at hi hj
  exact chartId_inj vm (by omega) (by omega) h

theorem avail_len_le (data : Option PatientData) :
    (availableVisualizations data).length ≤ 7 := by
  rcases data with _ | d
  · simp [availableVisualizations]
  · simpa [availableVisualizations] using
      List.length_filter_le (fun k => vizAvailable d k) registryOrder

/-- C10: `selectedVisualizations` is an order-preserving bijection from
chart ids to the available metric keys: it has exactly as many entries as
there are available visualizations, its i-th entry pairs the id
`viewMode-chart-i` with the i-th available key in registry order, and its
chart-id keys are pairwise distinct. -/
theorem c10_selected_viz (vm : String) (data : Option PatientData) :
    (selectedVisualizations vm data).length =
      (availableVisualizations data).length ∧
    (∀ i k, (availableVisualizations data)[i]? = some k →
      (selectedVisualizations vm data)[i]? = some (chartId vm i, k)) ∧
    ((selectedVisualizations vm data).map Prod.fst).Nodup := by
  refine ⟨?_, ?_, ?_⟩
  · simp [selectedVisualizations, chartIds]
  · intro i k h
    exact zip_range_spec (chartId vm) (availableVisualizations data) i k h
  · have hlen : (chartIds vm (availableVisualizations data).length).length =
        (availableVisualizations data).length := by simp [chartIds]
    rw [selectedVisualizations, List.map_fst_zip _ _ (le_of_eq hlen)]
    exact chartIds_nodup vm _ (avail_len_le data)

/-! ## SleepChart week summary (`SleepChart.js`) -/

/-- A sleep record as the chart consumes it: hours slept and a quality
label.  JS numbers are idealized as rationals. -/
structure SleepRec where
  hours : ℚ
  quality : String

/-- The keys of the `qualityLevels` object, in insertion order. -/
def sleepQualityLevels : List String :=
  ["Very good", "Fairly good", "Fairly bad", "Very bad"]

/-- The numeric value of `x.toFixed(1)` (round to nearest tenth, ties
toward the larger value), as `parseFloat` reads it back. -/
def toFixed1 (x : ℚ) : ℚ := (⌊x * 10 + 1/2⌋ : ℤ) / 10

/-- One `forEach` step: `if (qualityCounts[day.quality] !== undefined)
qualityCounts[day.quality]++` on the counts object, kept as an
association list in key-insertion order. -/
def bumpQuality (counts : List (String × Nat)) (q : String) : List (String × Nat) :=
  counts.map (fun p => if p.1 == q then (p.1, p.2 + 1) else p)

/-- The `qualityCounts` object: all four levels initialized to 0, then one
bump per record whose quality is a known level. -/
def qualityCounts (weekData : List SleepRec) : List (String × Nat) :=
  weekData.foldl (fun acc day => bumpQuality acc day.quality)
    (sleepQualityLevels.map (fun q => (q, 0)))

/-- `Object.entries(qualityCounts).sort(([,a],[,b]) => b - a)[0]`: a stable
descending sort by count followed by taking the head is the leftmost entry
of maximal count. -/
def maxEntry : List (String × Nat) → Option (String × Nat)
  | [] => none
  | e :: es => some (es.foldl (fun best p => if p.2 > best.2 then p else best) e)

/-- The fields of the summary object relevant to the claim. -/
structure WeekSummary where
  avgHours : ℚ
  mostCommonQuality : String
  mostCommonQualityCount : Nat
  avgVariation : ℚ

/-- `weekSummary`: null for an empty window, otherwise the derived
statistics of the week's records. -/
def weekSummary (weekData : List SleepRec) : Option WeekSummary :=
  if weekData.length = 0 then none
  else
    let totalHours := weekData.foldl (fun sum day => sum + day.hours) 0
    let avgHours := toFixed1 (totalHours / (weekData.length : ℚ))
    let mc := (maxEntry (qualityCounts weekData)).getD ("", 0)
    let hourVariations := weekData.map (fun day => |day.hours - avgHours|)
    let avgVariation :=
      toFixed1 ((hourVariations.foldl (fun sum v => sum + v) 0) /
        (hourVariations.length : ℚ))
    some ⟨avgHours, mc.1, mc.2, avgVariation⟩

/-- The number of records carrying quality `q`. -/
def countQuality (weekData : List SleepRec) (q : String) : Nat :=
  (weekData.filter (fun r => r.quality == q)).length

theorem foldl_add_map {α : Type} (f : α → ℚ) (l : List α) :
    ∀ init : ℚ, l.foldl (fun s d => s + f d) init = init + (l.map f).sum := by
  induction l with
  | nil => intro init; simp
  | cons a as ih =>
    intro init
    simp only [List.foldl_cons, List.map_cons, List.sum_cons, ih]
    ring

theorem bump_map (g : String → Nat) (L : List String) (x : String) :
    bumpQuality (L.map (fun q => (q, g q))) x =
      L.map (fun q => (q, if q == x then g q + 1 else g q)) := by
  simp only [bumpQuality, List.map_map]
  apply List.map_congr_left
  intro q _
  by_cases h : q = x <;> simp [h]

theorem qualityCounts_eq (weekData : List SleepRec) :
    qualityCounts weekData =
      sleepQualityLevels.map (fun q => (q, countQuality weekData q)) := by
  suffices h : ∀ (l : List SleepRec) (g : String → Nat),
      l.foldl (fun acc day => bumpQuality acc day.quality)
          (sleepQualityLevels.map (fun q => (q, g q))) =
        sleepQualityLevels.map (fun q => (q, g q + countQuality l q)) by
    have h2 := h weekData (fun _ => 0)
    simpa [qualityCounts] using h2
  intro l
  induction l with
  | nil => intro g; simp [countQuality]
  | cons a as ih =>
    intro g
    simp only [List.foldl_cons, bump_map, ih]
    apply List.map_congr_left
    intro q _
    congr 1
    have hcc : countQuality (a :: as) q =
        (if a.quality = q then 1 else 0) + countQuality as q := by
      simp only [countQuality, List.filter_cons]
      by_cases h : a.quality = q
      · simp [h]; omega
      · simp [h]
    rw [hcc]
    by_cases h : q = a.quality
    · simp [h, if_pos h.symm]; omega
    · have h2 : ¬(a.quality = q) := fun hq => h hq.symm
      simp [h, h2]

theorem maxEntry_spec (e : String × Nat) (es : List (String × Nat)) :
    ∃ m, maxEntry (e :: es) = some m ∧ m ∈ e :: es ∧
      ∀ p ∈ e :: es, p.2 ≤ m.2 := by
  suffices h : ∀ (l : List (String × Nat)) (b : String × Nat),
      (l.foldl (fun best p => if p.2 > best.2 then p else best) b ∈ b :: l) ∧
      b.2 ≤ (l.foldl (fun best p => if p.2 > best.2 then p else best) b).2 ∧
      ∀ p ∈ l, p.2 ≤ (l.foldl (fun best p => if p.2 > best.2 then p else best) b).2 by
    obtain ⟨hmem, hb, hall⟩ := h es e
    refine ⟨_, rfl, hmem, ?_⟩
    intro p hp
    rcases List.mem_cons.1 hp with rfl | hp
    · exact hb
    · exact hall p hp
  intro l
  induction l with
  | nil => intro b; simp
  | cons a as ih =>
    intro b
    simp only [List.foldl_cons]
    by_cases h : a.2 > b.2
    · rw [if_pos h]
      obtain ⟨hmem, hb, hall⟩ := ih a
      refine ⟨?_, ?_, ?_⟩
      · rcases List.mem_cons.1 hmem with hm | hm
        · rw [hm]; exact List.mem_cons_of_mem _ (List.mem_cons_self _ _)
        · exact List.mem_cons_of_mem _ (List.mem_cons_of_mem _ hm)
      · omega
      · intro p hp
        rcases List.mem_cons.1 hp with rfl | hp
        · exact hb
        · exact hall p hp
    · rw [if_neg h]
      obtain ⟨hmem, hb, hall⟩ := ih b
      refine ⟨?_, hb, ?_⟩
      · rcases List.mem_cons.1 hmem with hm | hm
        · rw [hm]; exact List.mem_cons_self _ _
        · exact List.mem_cons_of_mem _ (List.mem_cons_of_mem _ hm)
      · intro p hp
        rcases List.mem_cons.1 hp with rfl | hp
        · omega
        · exact hall p hp

theorem foldl_add_id (l : List ℚ) (init : ℚ) :
    l.foldl (fun s v => s + v) init = init + l.sum := by
  induction l generalizing init with
  | nil => simp
  | cons a as ih => simp only [List.foldl_cons, List.sum_cons, ih]; ring

theorem weekSummary_eq (weekData : List SleepRec) (h : weekData ≠ []) :
    weekSummary weekData = some
      ⟨toFixed1 ((weekData.map SleepRec.hours).sum / (weekData.length : ℚ)),
       ((maxEntry (qualityCounts weekData)).getD ("", 0)).1,
       ((maxEntry (qualityCounts weekData)).getD ("", 0)).2,
       toFixed1 ((weekData.map (fun d =>
         |d.hours -
           toFixed1 ((weekData.map SleepRec.hours).sum /
             (weekData.length : ℚ))|)).sum / (weekData.length : ℚ))⟩ := by
  have hlen : ¬(weekData.length = 0) := by
    simpa [List.length_eq_zero] using h
  simp only [weekSummary, if_neg hlen]
  rw [foldl_add_map SleepRec.hours weekData 0, zero_add, foldl_add_id, zero_add,
    List.length_map]

/-- C7: for an empty week window the SleepChart summary is null; for a
non-empty one, `avgHours` is the mean of the records' hours rounded to one
decimal, `avgVariation` is the mean absolute deviation from that rounded
average, rounded to one decimal, and `mostCommonQuality` is a quality
category with maximal count among the four fixed levels (with
`mostCommonQualityCount` that count). -/
theorem c7_week_summary (weekData : List SleepRec) :
    (weekData = [] → weekSummary weekData = none) ∧
    (weekData ≠ [] → ∃ s, weekSummary weekData = some s ∧
      s.avgHours = toFixed1 ((weekData.map SleepRec.hours).sum / (weekData.length : ℚ)) ∧
      s.avgVariation =
        toFixed1 ((weekData.map (fun d => |d.hours - s.avgHours|)).sum /
          (weekData.length : ℚ)) ∧
      s.mostCommonQuality ∈ sleepQualityLevels ∧
      s.mostCommonQualityCount = countQuality weekData s.mostCommonQuality ∧
      ∀ q ∈ sleepQualityLevels, countQuality weekData q ≤ s.mostCommonQualityCount) := by
  constructor
  · rintro rfl; rfl
  · intro hne
    have hq : qualityCounts weekData =
        ("Very good", countQuality weekData "Very good") ::
        ("Fairly good", countQuality weekData "Fairly good") ::
        ("Fairly bad", countQuality weekData "Fairly bad") ::
        ("Very bad", countQuality weekData "Very bad") :: [] := by
      rw [qualityCounts_eq]; rfl
    obtain ⟨m, hm_eq, hm_mem, hm_max⟩ :=
      maxEntry_spec ("Very good", countQuality weekData "Very good")
        [("Fairly good", countQuality weekData "Fairly good"),
         ("Fairly bad", countQuality weekData "Fairly bad"),
         ("Very bad", countQuality weekData "Very bad")]
    have hmax : maxEntry (qualityCounts weekData) = some m := by rw [hq]; exact hm_eq
    have hgd : (maxEntry (qualityCounts weekData)).getD ("", 0) = m := by
      rw [hmax]; rfl
    refine ⟨_, weekSummary_eq weekData hne, rfl, ?_, ?_, ?_, ?_⟩
    · simp only [hgd]
    · -- m.1 is one of the four quality levels
      rw [hgd]
      simp only [List.mem_cons, List.not_mem_nil, or_false] at hm_mem
      rcases hm_mem with h1 | h1 | h1 | h1 <;> (rw [h1]; simp [sleepQualityLevels])
    · rw [hgd]
      simp only [List.mem_cons, List.not_mem_nil, or_false] at hm_mem
      rcases hm_mem with h1 | h1 | h1 | h1 <;> rw [h1]
    · intro q hqmem
      rw [hgd]
      have hqc : (q, countQuality weekData q) ∈
          ("Very good", countQuality weekData "Very good") ::
          [("Fairly good", countQuality weekData "Fairly good"),
           ("Fairly bad", countQuality weekData "Fairly bad"),
           ("Very bad", countQuality weekData "Very bad")] := by
        simp only [sleepQualityLevels, List.mem_cons, List.not_mem_nil, or_false] at hqmem
        rcases hqmem with h1 | h1 | h1 | h1 <;> simp [h1]
      exact hm_max _ hqc

end HealthDash
